import Mathlib

/-!
Verification of the filter-and-aggregate pipeline of the Boston crime
dashboard (`src/streamlit_app.py`).

The pipeline is shallowly embedded: a table is a `List Row`, one `Row` per
CSV record with exactly the columns the pipeline reads.  Timestamps are
modelled at day granularity (a `Nat` day number) because every operation in
the pipeline — the date-range mask (`.dt.date` comparisons), the daily
resample, and the rolling window — works at day granularity.  Nullable
columns (`DISTRICT`, `OFFENSE_CODE_GROUP`, `UCR_PART`, `SHOOTING`, `Lat`,
`Long`) are `Option`s; a pandas `NaN` is `none`, and the empty string in the
`SHOOTING` column is `some ""`.
-/

/-- One record of the uploaded CSV, restricted to the columns the pipeline
reads.  `date` is the calendar day of `OCCURRED_ON_DATE` (rows whose
timestamp failed to parse are dropped at ingestion and never reach the
pipeline, so `date` is total here). -/
structure Row where
  date : Nat
  district : Option String
  offense : Option String
  ucr : Option String
  shooting : Option String
  lat : Option Int
  long : Option Int
deriving DecidableEq, Repr, Inhabited

/-- The UCR-part radio widget (`ucr_filter`, lines 66-70). -/
inductive UcrFilter where
  | all
  | partOneOnly
  | partTwoOnly
deriving DecidableEq, Repr

/-- The shooting radio widget (`shooting_filter`, lines 73-77). -/
inductive ShootingFilter where
  | all
  | shootingOnly
  | nonShootingOnly
deriving DecidableEq, Repr

/-- The user-chosen filter state: date range (inclusive, day granularity),
selected districts (`selected_districts`), UCR-part choice, shooting
choice. -/
structure FilterCriteria where
  startDate : Nat
  endDate : Nat
  districts : List String
  ucrFilter : UcrFilter
  shootingFilter : ShootingFilter
deriving DecidableEq, Repr

/-- Date-range mask, lines 80-81:
`(df["OCCURRED_ON_DATE"].dt.date >= start_date) & (... <= end_date)`. -/
def dateMask (c : FilterCriteria) (r : Row) : Bool :=
  decide (c.startDate ≤ r.date) && decide (r.date ≤ c.endDate)

/-- District mask, line 85: `df["DISTRICT"].isin(selected_districts)`.
In pandas a `NaN` district is never `isin` a list of strings. -/
def districtMask (c : FilterCriteria) (r : Row) : Bool :=
  match r.district with
  | some d => c.districts.contains d
  | none => false

/-- UCR-part mask, lines 88-91: equality with the exact label; a pandas
`NaN` compares unequal to any string. -/
def ucrMask (c : FilterCriteria) (r : Row) : Bool :=
  match c.ucrFilter with
  | .all => true
  | .partOneOnly => r.ucr == some "Part One"
  | .partTwoOnly => r.ucr == some "Part Two"

/-- Shooting mask, lines 94-97:
`notna & (!= "")` for "Shooting only", `isna | (== "")` for
"Non-shooting only". -/
def shootingMask (c : FilterCriteria) (r : Row) : Bool :=
  match c.shootingFilter with
  | .all => true
  | .shootingOnly => r.shooting.isSome && !(r.shooting == some "")
  | .nonShootingOnly => !r.shooting.isSome || (r.shooting == some "")

/-- The full row mask, lines 80-97: the date mask, conjoined with the
district mask only when the district selection is non-empty
(`if selected_districts:` on line 84), then the UCR and shooting masks
(each a no-op in the `All` position of its radio). -/
def rowMask (c : FilterCriteria) (r : Row) : Bool :=
  (if c.districts.isEmpty then dateMask c r
   else dateMask c r && districtMask c r)
  && ucrMask c r && shootingMask c r

/-- Line 99: `filtered = df.loc[mask].copy()`. -/
def filterTable (tbl : List Row) (c : FilterCriteria) : List Row :=
  tbl.filter (rowMask c)

/-- Modelled from the spec: the filter with the district predicate omitted
entirely ("Empty district-set in criteria is equivalent to omitting the
district predicate"): date, UCR and shooting masks only.  This definition
follows the spec's words and is compared against `filterTable`. -/
def filterTableNoDistrict (tbl : List Row) (c : FilterCriteria) : List Row :=
  tbl.filter (fun r => dateMask c r && ucrMask c r && shootingMask c r)

/-- Smallest occurrence day in the table (day of the `.resample("D")` span
start); 0 for an empty table, but `dailyCounts` is only meaningful on the
non-empty tables the guard on line 103 lets through. -/
def minDate (tbl : List Row) : Nat :=
  match tbl.map (·.date) with
  | [] => 0
  | d :: ds => ds.foldl Nat.min d

/-- Largest occurrence day in the table (day of the `.resample("D")` span
end). -/
def maxDate (tbl : List Row) : Nat :=
  match tbl.map (·.date) with
  | [] => 0
  | d :: ds => ds.foldl Nat.max d

/-- Number of rows falling on calendar day `d` (the `.size()` of one daily
resample bucket). -/
def countOnDay (tbl : List Row) (d : Nat) : Nat :=
  (tbl.filter (fun r => r.date == d)).length

/-- Lines 128-134: `filtered.set_index("OCCURRED_ON_DATE").resample("D")
.size()` — one `(day, count)` entry for every calendar day from the minimum
to the maximum occurrence day, empty days included with count 0. -/
def dailyCounts (tbl : List Row) : List (Nat × Nat) :=
  (List.range (maxDate tbl - minDate tbl + 1)).map
    (fun i => (minDate tbl + i, countOnDay tbl (minDate tbl + i)))

/-- Line 135: `.rolling(window=7, min_periods=1).mean()` — at position `i`
the mean of the trailing window `counts[i-6..i]`, truncated at the start of
the series (Nat subtraction makes `i-6` zero for `i < 6`, matching
`min_periods=1`). -/
def rollingMean7 (counts : List Nat) : List ℚ :=
  (List.range counts.length).map (fun i =>
    let w := (counts.take (i + 1)).drop (i - 6)
    ((w.sum : ℚ) / (w.length : ℚ)))

/-- Lexicographic code-point comparison of character lists: the comparison
Python (and hence pandas) uses on string labels.  It agrees with Lean's
`String` order (`strLeB_iff_le` below) but is written on the character
data so that it evaluates on concrete inputs. -/
def charListLe : List Char → List Char → Bool
  | [], _ => true
  | _ :: _, [] => false
  | a :: as, b :: bs =>
    if a < b then true
    else if b < a then false
    else charListLe as bs

/-- String comparison on the underlying character data. -/
def strLeB (a b : String) : Bool :=
  charListLe a.data b.data

/-- Insertion step of `sortBy`. -/
def insertSorted (le : α → α → Bool) (a : α) : List α → List α
  | [] => [a]
  | b :: l => if le a b then a :: b :: l else b :: insertSorted le a l

/-- A sorted permutation (insertion sort).  The pandas sorts in the
pipeline (`groupby`'s key sort, `sort_values`, `sort_index`) are embedded
as a sorted permutation; pandas' default quicksort is not stable, so tie
order carries no meaning there and none is modelled. -/
def sortBy (le : α → α → Bool) : List α → List α
  | [] => []
  | a :: l => insertSorted le a (sortBy le l)

/-- Group keys in ascending order as pandas `groupby` produces them:
the distinct non-null values of `key`, sorted.  `filterMap` drops the null
keys exactly as `groupby` does (`dropna=True` default). -/
def groupKeys (tbl : List Row) (key : Row → Option String) : List String :=
  sortBy strLeB ((tbl.filterMap key).dedup)

/-- `groupby(key).size()`: one `(category, count)` pair per distinct
non-null key value, keys ascending. -/
def groupCounts (tbl : List Row) (key : Row → Option String) :
    List (String × Nat) :=
  (groupKeys tbl key).map
    (fun k => (k, (tbl.filter (fun r => key r == some k)).length))

/-- `sort_values("count", ascending=False)` on a `(category, count)` list. -/
def sortByCountDesc (l : List (String × Nat)) : List (String × Nat) :=
  sortBy (fun a b => decide (b.2 ≤ a.2)) l

/-- `sort_index()` on a `(category, count)` list: ascending by label. -/
def sortByKeyAsc (l : List (String × Nat)) : List (String × Nat) :=
  sortBy (fun a b => strLeB a.1 b.1) l

/-- Lines 144-152: `filtered.groupby("DISTRICT").size()` followed by
`sort_index()` — per-district counts sorted ascending by district label. -/
def distCounts (tbl : List Row) : List (String × Nat) :=
  sortByKeyAsc (groupCounts tbl (·.district))

/-- Lines 161-167: `filtered.groupby("OFFENSE_CODE_GROUP").size()` sorted
by count descending. -/
def offenseCountsFull (tbl : List Row) : List (String × Nat) :=
  sortByCountDesc (groupCounts tbl (·.offense))

/-- Line 173: `offense_counts_full.head(10)`. -/
def top10 (tbl : List Row) : List (String × Nat) :=
  (offenseCountsFull tbl).take 10

/-- Lines 174-176: `overall_total - top10_total`. -/
def othersCount (tbl : List Row) : Nat :=
  ((offenseCountsFull tbl).map (·.2)).sum - ((top10 tbl).map (·.2)).sum

/-- Lines 178-188: append the synthetic `"Others"` row when its count is
strictly positive, then re-sort by count descending. -/
def pieData (tbl : List Row) : List (String × Nat) :=
  sortByCountDesc
    (if 0 < othersCount tbl
     then top10 tbl ++ [("Others", othersCount tbl)]
     else top10 tbl)

/-- Line 209: `filtered.dropna(subset=["Lat", "Long"])`. -/
def dropMissingCoords (tbl : List Row) : List Row :=
  tbl.filter (fun r => r.lat.isSome && r.long.isSome)

/-- Line 212: the sample cap of this variant. -/
def geoSampleCap : Nat := 4000

/-- Line 213: `random_state=42`. -/
def geoSampleSeed : Nat := 42

/-- A linear congruential step; see `shuffleSeed`. -/
def lcg (s : Nat) : Nat := (1103515245 * s + 12345) % 2147483648

/-- Modelled from the spec: the uniform random selection inside
`DataFrame.sample(n, random_state=seed)` lives in pandas/numpy, not in this
repository; the spec requires only "a uniform random sample of exactly cap
rows using a fixed seed" with determinism within one implementation.  It is
modelled as a deterministic seed-keyed Fisher-Yates shuffle: repeatedly
draw an index from the current seed and extract that element. -/
def shuffleSeed : Nat → List Row → List Row
  | _, [] => []
  | seed, a :: rest =>
    (a :: rest).getD (seed % (rest.length + 1)) a ::
      shuffleSeed (lcg seed) ((a :: rest).eraseIdx (seed % (rest.length + 1)))
termination_by _ xs => xs.length
decreasing_by
  have h : seed % (rest.length + 1) < rest.length + 1 :=
    Nat.mod_lt _ (Nat.succ_pos _)
  simp [List.length_eraseIdx, h]

/-- Lines 209-213 with the seed exposed: drop rows missing either
coordinate, and when more than `cap` rows remain take a seed-keyed uniform
sample of exactly `cap` rows; otherwise return the table unchanged. -/
def geoSampleWith (seed : Nat) (tbl : List Row) : List Row :=
  let geo := dropMissingCoords tbl
  if geoSampleCap < geo.length
  then (shuffleSeed seed geo).take geoSampleCap
  else geo

/-- Lines 209-213 as written: seed fixed at 42. -/
def geoSample (tbl : List Row) : List Row :=
  geoSampleWith geoSampleSeed tbl

/-- The outcome of one render pass: either the empty-result notice of lines
103-105 (no aggregate is computed) or the derived views handed to the
charts. -/
inductive PipelineResult where
  | emptyNotice
  | views (daily : List (Nat × Nat)) (rolling : List ℚ)
      (districts : List (String × Nat)) (pie : List (String × Nat))
      (geo : List Row)
deriving DecidableEq

/-- The script's filter-then-aggregate control flow: lines 79-99 compute
`filtered`; lines 103-105 stop with a warning when it is empty; otherwise
the four aggregations run on `filtered`. -/
def pipeline (tbl : List Row) (c : FilterCriteria) : PipelineResult :=
  let filtered := filterTable tbl c
  if filtered.isEmpty then .emptyNotice
  else
    .views (dailyCounts filtered)
      (rollingMean7 ((dailyCounts filtered).map (·.2)))
      (distCounts filtered) (pieData filtered) (geoSample filtered)

/-! ### Helper lemmas -/

lemma foldl_min_le (l : List Nat) : ∀ a : Nat, l.foldl Nat.min a ≤ a := by
  induction l with
  | nil => intro a; simp
  | cons x xs ih =>
    intro a
    exact le_trans (ih (Nat.min a x)) (Nat.min_le_left a x)

lemma foldl_min_le_mem (l : List Nat) :
    ∀ a x : Nat, x ∈ l → l.foldl Nat.min a ≤ x := by
  induction l with
  | nil => intro a x hx; cases hx
  | cons y ys ih =>
    intro a x hx
    cases hx with
    | head => exact le_trans (foldl_min_le ys _) (Nat.min_le_right a y)
    | tail _ h => exact ih _ x h

lemma le_foldl_max (l : List Nat) : ∀ a : Nat, a ≤ l.foldl Nat.max a := by
  induction l with
  | nil => intro a; simp
  | cons x xs ih =>
    intro a
    exact le_trans (Nat.le_max_left a x) (ih (Nat.max a x))

lemma mem_le_foldl_max (l : List Nat) :
    ∀ a x : Nat, x ∈ l → x ≤ l.foldl Nat.max a := by
  induction l with
  | nil => intro a x hx; cases hx
  | cons y ys ih =>
    intro a x hx
    cases hx with
    | head => exact le_trans (Nat.le_max_right a y) (le_foldl_max ys _)
    | tail _ h => exact ih _ x h

lemma minDate_le_of_mem {tbl : List Row} {r : Row} (h : r ∈ tbl) :
    minDate tbl ≤ r.date := by
  cases tbl with
  | nil => cases h
  | cons t ts =>
    simp only [minDate, List.map_cons]
    cases h with
    | head => exact foldl_min_le _ _
    | tail _ h =>
      exact foldl_min_le_mem _ _ _ (List.mem_map_of_mem (·.date) h)

lemma le_maxDate_of_mem {tbl : List Row} {r : Row} (h : r ∈ tbl) :
    r.date ≤ maxDate tbl := by
  cases tbl with
  | nil => cases h
  | cons t ts =>
    simp only [maxDate, List.map_cons]
    cases h with
    | head => exact le_foldl_max _ _
    | tail _ h =>
      exact mem_le_foldl_max _ _ _ (List.mem_map_of_mem (·.date) h)

/-! ### C4: empty district selection is permissive -/

/-- C4.  For every table and criteria, filtering with an empty district set
equals filtering with the district predicate omitted entirely: the empty
selection is "no constraint", not "exclude all". -/
theorem empty_district_permissive (tbl : List Row) (c : FilterCriteria)
    (h : c.districts = []) :
    filterTable tbl c = filterTableNoDistrict tbl c := by
  unfold filterTable filterTableNoDistrict rowMask
  have he : c.districts.isEmpty = true := by simp [h]
  simp [he]

/-- Witness for C4 at a concrete table and criteria. -/
theorem empty_district_permissive_witness :
    (⟨0, 5, [], .all, .all⟩ : FilterCriteria).districts = [] ∧
      filterTable [⟨3, some "A1", none, none, none, none, none⟩]
          ⟨0, 5, [], .all, .all⟩ =
        filterTableNoDistrict [⟨3, some "A1", none, none, none, none, none⟩]
          ⟨0, 5, [], .all, .all⟩ :=
  ⟨rfl, empty_district_permissive _ _ rfl⟩

/-! ### C5: tri-state shooting predicate -/

/-- C5.  The shooting predicate is a tri-state string test: "Shooting only"
selects exactly the rows whose flag is present and non-empty,
"Non-shooting only" exactly those whose flag is null or the empty string,
"All" applies no constraint; on the concrete column
`["Y", "", None, "Y"]` the two restrictive settings each select 2 rows. -/
theorem shooting_tri_state (c : FilterCriteria) (r : Row) :
    (c.shootingFilter = .shootingOnly →
      (shootingMask c r = true ↔ ∃ s, r.shooting = some s ∧ s ≠ "")) ∧
    (c.shootingFilter = .nonShootingOnly →
      (shootingMask c r = true ↔
        (r.shooting = none ∨ r.shooting = some ""))) ∧
    (c.shootingFilter = .all → shootingMask c r = true) ∧
    (filterTable
        [⟨0, none, none, none, some "Y", none, none⟩,
         ⟨0, none, none, none, some "", none, none⟩,
         ⟨0, none, none, none, none, none, none⟩,
         ⟨0, none, none, none, some "Y", none, none⟩]
        ⟨0, 0, [], .all, .shootingOnly⟩).length = 2 ∧
    (filterTable
        [⟨0, none, none, none, some "Y", none, none⟩,
         ⟨0, none, none, none, some "", none, none⟩,
         ⟨0, none, none, none, none, none, none⟩,
         ⟨0, none, none, none, some "Y", none, none⟩]
        ⟨0, 0, [], .all, .nonShootingOnly⟩).length = 2 := by
  refine ⟨?_, ?_, ?_, by decide, by decide⟩
  · intro h
    cases hs : r.shooting with
    | none => simp [shootingMask, h, hs]
    | some s => simp [shootingMask, h, hs]
  · intro h
    cases hs : r.shooting with
    | none => simp [shootingMask, h, hs]
    | some s => simp [shootingMask, h, hs]
  · intro h
    simp [shootingMask, h]

/-- Witness for C5: the three implications discharged at concrete criteria
and a concrete row. -/
theorem shooting_tri_state_witness :
    (shootingMask ⟨0, 0, [], .all, .shootingOnly⟩
        ⟨0, none, none, none, some "Y", none, none⟩ = true ↔
      ∃ s, (⟨0, none, none, none, some "Y", none, none⟩ : Row).shooting
          = some s ∧ s ≠ "") ∧
    (shootingMask ⟨0, 0, [], .all, .nonShootingOnly⟩
        ⟨0, none, none, none, some "Y", none, none⟩ = true ↔
      ((⟨0, none, none, none, some "Y", none, none⟩ : Row).shooting = none ∨
        (⟨0, none, none, none, some "Y", none, none⟩ : Row).shooting
          = some "")) ∧
    shootingMask ⟨0, 0, [], .all, .all⟩
        ⟨0, none, none, none, some "Y", none, none⟩ = true :=
  ⟨(shooting_tri_state ⟨0, 0, [], .all, .shootingOnly⟩ _).1 rfl,
   (shooting_tri_state ⟨0, 0, [], .all, .nonShootingOnly⟩ _).2.1 rfl,
   (shooting_tri_state ⟨0, 0, [], .all, .all⟩ _).2.2.1 rfl⟩

/-! ### C6: idempotence of the filter -/

/-- C6.  Applying the filter twice yields the same result as applying it
once. -/
theorem filterTable_idempotent (tbl : List Row) (c : FilterCriteria) :
    filterTable (filterTable tbl c) c = filterTable tbl c := by
  unfold filterTable
  rw [List.filter_filter]
  simp

/-! ### C8: pure order-preserving row selection -/

/-- C8.  The filter is a pure order-preserving row selection: its output is
a sublist of the input (subset of the rows, original relative order), and
every surviving row is an unmodified row of the input (all original columns
retained); the source table is untouched. -/
theorem filter_order_preserving (tbl : List Row) (c : FilterCriteria) :
    (filterTable tbl c).Sublist tbl ∧
      ∀ r ∈ filterTable tbl c, r ∈ tbl :=
  ⟨List.filter_sublist tbl,
   fun _ hr => (List.filter_sublist tbl).subset hr⟩

/-! ### C9: empty-result guard -/

/-- C9.  The render pass yields the distinguished empty-result notice
exactly when the filtered table is empty; in that case no aggregation is
carried in the result (and conversely a non-empty filtered table yields the
aggregated views). -/
theorem pipeline_empty_guard (tbl : List Row) (c : FilterCriteria) :
    pipeline tbl c = PipelineResult.emptyNotice ↔ filterTable tbl c = [] := by
  by_cases h : filterTable tbl c = []
  · simp [pipeline, h]
  · simp [pipeline, h]

/-! ### C7: geographic sample -/

/-- C7.  The geographic sample drops rows missing either coordinate, then
returns at most `cap = 4000` rows; when the post-drop table has at most
`cap` rows it is returned unchanged (original order preserved); and the
sample is a deterministic function of seed and input, so two invocations
with the same seed and input coincide. -/
theorem geoSample_cap_and_identity (tbl : List Row) :
    (geoSample tbl).length ≤ geoSampleCap ∧
    ((dropMissingCoords tbl).length ≤ geoSampleCap →
      geoSample tbl = dropMissingCoords tbl) ∧
    ∀ tbl2, tbl = tbl2 →
      geoSampleWith geoSampleSeed tbl = geoSampleWith geoSampleSeed tbl2 := by
  refine ⟨?_, ?_, ?_⟩
  · unfold geoSample geoSampleWith
    by_cases h : geoSampleCap < (dropMissingCoords tbl).length
    · simp only [h, if_pos, ite_true]
      exact List.length_take_le geoSampleCap _
    · simp only [h, if_neg, ite_false]
      omega
  · intro hle
    unfold geoSample geoSampleWith
    have h : ¬ geoSampleCap < (dropMissingCoords tbl).length := by omega
    simp [h]
  · intro tbl2 h
    rw [h]

/-- Witness for C7 at a one-row geocoded table (below the cap). -/
theorem geoSample_cap_and_identity_witness :
    (dropMissingCoords
        [(⟨0, none, none, none, none, some 1, some 2⟩ : Row)]).length ≤
      geoSampleCap ∧
    geoSample [(⟨0, none, none, none, none, some 1, some 2⟩ : Row)] =
      dropMissingCoords [(⟨0, none, none, none, none, some 1, some 2⟩ : Row)] :=
  ⟨by decide,
   (geoSample_cap_and_identity _).2.1 (by decide)⟩

/-! ### Sorting lemmas -/

lemma perm_insertSorted (le : α → α → Bool) (a : α) :
    ∀ l : List α, (insertSorted le a l).Perm (a :: l) := by
  intro l
  induction l with
  | nil => exact List.Perm.refl _
  | cons b l ih =>
    by_cases h : le a b = true
    · simp only [insertSorted]
      rw [if_pos h]
    · simp only [insertSorted]
      rw [if_neg h]
      exact (ih.cons b).trans (List.Perm.swap a b l)

lemma perm_sortBy (le : α → α → Bool) :
    ∀ l : List α, (sortBy le l).Perm l := by
  intro l
  induction l with
  | nil => exact List.Perm.refl _
  | cons a l ih =>
    simp only [sortBy]
    exact (perm_insertSorted le a (sortBy le l)).trans (ih.cons a)

lemma pairwise_insertSorted (le : α → α → Bool)
    (htotal : ∀ x y, (le x y || le y x) = true)
    (htrans : ∀ x y z, le x y = true → le y z = true → le x z = true)
    (a : α) :
    ∀ l : List α, l.Pairwise (fun x y => le x y = true) →
      (insertSorted le a l).Pairwise (fun x y => le x y = true) := by
  intro l
  induction l with
  | nil =>
    intro _
    simp [insertSorted]
  | cons b l ih =>
    intro h
    rcases List.pairwise_cons.mp h with ⟨hb, hl⟩
    by_cases hab : le a b = true
    · simp only [insertSorted]
      rw [if_pos hab]
      apply List.pairwise_cons.mpr
      refine ⟨?_, h⟩
      intro x hx
      rcases List.mem_cons.mp hx with rfl | hx
      · exact hab
      · exact htrans a b x hab (hb x hx)
    · simp only [insertSorted]
      rw [if_neg hab]
      have hba : le b a = true := by
        have ht := htotal a b
        rcases (Bool.or_eq_true _ _).mp ht with h2 | h2
        · exact absurd h2 hab
        · exact h2
      apply List.pairwise_cons.mpr
      refine ⟨?_, ih hl⟩
      intro x hx
      have hx2 := (perm_insertSorted le a l).mem_iff.mp hx
      rcases List.mem_cons.mp hx2 with rfl | hx2
      · exact hba
      · exact hb x hx2

lemma pairwise_sortBy (le : α → α → Bool)
    (htotal : ∀ x y, (le x y || le y x) = true)
    (htrans : ∀ x y z, le x y = true → le y z = true → le x z = true) :
    ∀ l : List α, (sortBy le l).Pairwise (fun x y => le x y = true) := by
  intro l
  induction l with
  | nil => simp [sortBy]
  | cons a l ih =>
    simp only [sortBy]
    exact pairwise_insertSorted le htotal htrans a _ ih

lemma charListLe_iff_not_lt :
    ∀ as bs : List Char, charListLe as bs = true ↔ ¬ bs < as := by
  intro as
  induction as with
  | nil =>
    intro bs
    constructor
    · intro _ h
      cases h
    · intro _
      rfl
  | cons a as ih =>
    intro bs
    cases bs with
    | nil =>
      simp only [charListLe]
      refine ⟨fun h => absurd h (by decide), fun h => (h List.Lex.nil).elim⟩
    | cons b bs =>
      by_cases h1 : a < b
      · have hba : ¬ b < a := lt_asymm h1
        simp only [charListLe, if_pos h1]
        constructor
        · intro _ hlt
          cases hlt with
          | cons h2 => exact lt_irrefl _ h1
          | rel h2 => exact hba h2
        · intro _
          trivial
      · by_cases h2 : b < a
        · have hlt : (b :: bs) < (a :: as) := List.Lex.rel h2
          simp only [charListLe, if_neg h1, if_pos h2]
          refine ⟨fun h => absurd h (by decide), fun h => (h hlt).elim⟩
        · have heq : a = b := le_antisymm (le_of_not_lt h2) (le_of_not_lt h1)
          subst heq
          simp only [charListLe, if_neg h1, if_neg h2]
          rw [ih bs]
          constructor
          · intro h hlt
            cases hlt with
            | cons h3 => exact h h3
            | rel h3 => exact h1 h3
          · intro h hlt
            exact h (List.Lex.cons hlt)

lemma strLeB_iff_le (a b : String) : strLeB a b = true ↔ a ≤ b := by
  have h2 : (a ≤ b) = ¬ b < a := rfl
  rw [h2, show (b < a) ↔ b.data < a.data from String.lt_iff_toList_lt]
  exact charListLe_iff_not_lt a.data b.data

lemma strLeB_total (a b : String) : (strLeB a b || strLeB b a) = true := by
  rcases le_total a b with h | h
  · have hb := (strLeB_iff_le a b).mpr h
    simp [hb]
  · have hb := (strLeB_iff_le b a).mpr h
    simp [hb]

lemma strLeB_trans (a b c : String) (h1 : strLeB a b = true)
    (h2 : strLeB b c = true) : strLeB a c = true :=
  (strLeB_iff_le a c).mpr
    (le_trans ((strLeB_iff_le a b).mp h1) ((strLeB_iff_le b c).mp h2))

/-! ### Counting helpers shared by the group-by and resample aggregations -/

lemma sum_map_ite_some {α : Type} [DecidableEq α] (K : List α)
    (hnd : K.Nodup) (x : Option α) :
    (K.map (fun k => if x = some k then 1 else 0)).sum
      = if ∃ s ∈ K, x = some s then 1 else 0 := by
  induction K with
  | nil => simp
  | cons k K2 ih =>
    have hnd2 := List.nodup_cons.mp hnd
    by_cases hx : x = some k
    · subst hx
      have h0 : (K2.map
          (fun s => if (some k : Option α) = some s then 1 else 0)).sum = 0 := by
        apply List.sum_eq_zero
        intro y hy
        rcases List.mem_map.mp hy with ⟨s, hs, rfl⟩
        have hne : k ≠ s := fun h => hnd2.1 (h ▸ hs)
        simp [hne]
      rw [List.map_cons, List.sum_cons, h0]
      simp
    · simp [hx, ih hnd2.2]

lemma sum_countP_keys {α : Type} [DecidableEq α] (key : Row → Option α)
    (K : List α) (hnd : K.Nodup) (tbl : List Row) :
    (K.map (fun k => tbl.countP (fun r => key r == some k))).sum
      = tbl.countP (fun r => decide (∃ s ∈ K, key r = some s)) := by
  induction tbl with
  | nil => simp
  | cons r rest ih =>
    simp only [List.countP_cons]
    rw [List.sum_map_add, ih]
    congr 1
    have h := sum_map_ite_some K hnd (key r)
    simp only [beq_iff_eq, decide_eq_true_eq]
    exact h

lemma sum_groupCounts (tbl : List Row) (key : Row → Option String) :
    ((groupCounts tbl key).map (·.2)).sum
      = (tbl.filter (fun r => (key r).isSome)).length := by
  unfold groupCounts
  rw [List.map_map]
  have hperm : (groupKeys tbl key).Perm ((tbl.filterMap key).dedup) :=
    perm_sortBy _ _
  rw [(hperm.map _).sum_eq]
  simp only [Function.comp_def]
  have hcnt :
      ((tbl.filterMap key).dedup.map
          (fun k => (tbl.filter (fun r => key r == some k)).length)).sum
        = ((tbl.filterMap key).dedup.map
          (fun k => tbl.countP (fun r => key r == some k))).sum := by
    simp [List.countP_eq_length_filter]
  rw [hcnt, sum_countP_keys key _ (List.nodup_dedup _) tbl,
    List.countP_eq_length_filter]
  apply congrArg List.length
  apply List.filter_congr
  intro r hr
  cases hk : key r with
  | none => simp
  | some s =>
    simp only [Option.isSome_some, decide_eq_true_eq]
    have hmem : s ∈ (tbl.filterMap key).dedup :=
      List.mem_dedup.mpr (List.mem_filterMap.mpr ⟨r, hr, hk⟩)
    simp [hmem]
    exact ⟨r, hr, hk⟩

lemma pairwise_sortByKeyAsc (l : List (String × Nat)) :
    (sortByKeyAsc l).Pairwise (fun a b => a.1 ≤ b.1) := by
  have h := pairwise_sortBy (fun a b : String × Nat => strLeB a.1 b.1)
    (fun x y => strLeB_total x.1 y.1)
    (fun x y z hxy hyz => strLeB_trans x.1 y.1 z.1 hxy hyz) l
  exact h.imp (fun hab => (strLeB_iff_le _ _).mp hab)

lemma pairwise_sortByCountDesc (l : List (String × Nat)) :
    (sortByCountDesc l).Pairwise (fun a b => b.2 ≤ a.2) := by
  have h := pairwise_sortBy (fun a b : String × Nat => decide (b.2 ≤ a.2))
    (fun x y => by simpa using le_total y.2 x.2)
    (fun x y z hxy hyz => by
      simp only [decide_eq_true_eq] at hxy hyz ⊢
      exact le_trans hyz hxy) l
  exact h.imp (fun hab => of_decide_eq_true hab)

/-! ### C10: per-district counts -/

/-- C10.  The per-district aggregation drops rows with a null district (the
group-by drops null keys): the counts sum to the number of filtered rows
with a non-null district, hence at most the filtered row count, with
equality exactly when every row has a district; and the categories are
sorted ascending by district label. -/
theorem distCounts_dropna_sorted (tbl : List Row) :
    ((distCounts tbl).map (·.2)).sum
        = (tbl.filter (fun r => r.district.isSome)).length ∧
    ((distCounts tbl).map (·.2)).sum ≤ tbl.length ∧
    (((distCounts tbl).map (·.2)).sum = tbl.length ↔
      ∀ r ∈ tbl, r.district.isSome) ∧
    (distCounts tbl).Pairwise (fun a b => a.1 ≤ b.1) := by
  have hsum : ((distCounts tbl).map (·.2)).sum
      = (tbl.filter (fun r => r.district.isSome)).length := by
    unfold distCounts sortByKeyAsc
    rw [((perm_sortBy _ _).map _).sum_eq]
    exact sum_groupCounts tbl (·.district)
  refine ⟨hsum, ?_, ?_, pairwise_sortByKeyAsc _⟩
  · rw [hsum]
    exact List.length_filter_le _ tbl
  · rw [hsum]
    exact List.filter_length_eq_length

/-! ### C1: daily trend covers the full span and conserves mass -/

/-- C1.  On a non-empty filtered table the daily trend has exactly one
entry per calendar day from the minimum to the maximum occurrence date
(length `(maxDate - minDate) + 1`, zero-count days included), and the
counts sum to the number of input rows. -/
theorem dailyTrend_span_and_total (tbl : List Row) (h : tbl ≠ []) :
    (dailyCounts tbl).length = maxDate tbl - minDate tbl + 1 ∧
    ((dailyCounts tbl).map (·.2)).sum = tbl.length := by
  constructor
  · simp [dailyCounts]
  · have hmm : minDate tbl ≤ maxDate tbl := by
      cases tbl with
      | nil => exact absurd rfl h
      | cons t ts =>
        exact le_trans (minDate_le_of_mem (List.mem_cons_self t ts))
          (le_maxDate_of_mem (List.mem_cons_self t ts))
    have hbound : ∀ r ∈ tbl,
        minDate tbl ≤ r.date ∧
          r.date < minDate tbl + (maxDate tbl - minDate tbl + 1) := by
      intro r hr
      have h1 := minDate_le_of_mem hr
      have h2 := le_maxDate_of_mem hr
      omega
    have hK : ((List.range (maxDate tbl - minDate tbl + 1)).map
        (fun i => minDate tbl + i)).Nodup :=
      List.Nodup.map (fun i j hij => by omega) (List.nodup_range _)
    have hkey := sum_countP_keys (fun r => some r.date)
      ((List.range (maxDate tbl - minDate tbl + 1)).map
        (fun i => minDate tbl + i)) hK tbl
    have hstep : ((dailyCounts tbl).map (·.2)).sum
        = (((List.range (maxDate tbl - minDate tbl + 1)).map
            (fun i => minDate tbl + i)).map
            (fun k => tbl.countP (fun r => (some r.date : Option Nat) == some k))).sum := by
      simp only [dailyCounts, List.map_map, Function.comp_def, countOnDay,
        ← List.countP_eq_length_filter]
      congr 1
    rw [hstep, hkey]
    have hfin : tbl.countP (fun r => decide
        (∃ s ∈ (List.range (maxDate tbl - minDate tbl + 1)).map
            (fun i => minDate tbl + i), (some r.date : Option Nat) = some s))
        = tbl.countP (fun _ => true) := by
      apply List.countP_congr
      intro r hr
      simp only [decide_eq_true_eq, List.mem_map, List.mem_range]
      constructor
      · intro _; trivial
      · intro _
        refine ⟨r.date, ⟨r.date - minDate tbl, ?_, ?_⟩, rfl⟩
        · have := hbound r hr; omega
        · have := hbound r hr; omega
    rw [hfin, List.countP_true]

/-- Witness for C1 at the spec's concrete scenario: 10 rows on three
calendar days (5 on day 10, none on day 11, 5 on day 12). -/
theorem dailyTrend_span_and_total_witness :
    (List.replicate 5 (⟨10, none, none, none, none, none, none⟩ : Row) ++
        List.replicate 5 (⟨12, none, none, none, none, none, none⟩ : Row)) ≠
      ([] : List Row) ∧
    (dailyCounts
        (List.replicate 5 (⟨10, none, none, none, none, none, none⟩ : Row) ++
          List.replicate 5
            (⟨12, none, none, none, none, none, none⟩ : Row))).length =
      maxDate
          (List.replicate 5 (⟨10, none, none, none, none, none, none⟩ : Row) ++
            List.replicate 5
              (⟨12, none, none, none, none, none, none⟩ : Row)) -
        minDate
          (List.replicate 5 (⟨10, none, none, none, none, none, none⟩ : Row) ++
            List.replicate 5
              (⟨12, none, none, none, none, none, none⟩ : Row)) + 1 ∧
    ((dailyCounts
        (List.replicate 5 (⟨10, none, none, none, none, none, none⟩ : Row) ++
          List.replicate 5
            (⟨12, none, none, none, none, none, none⟩ : Row))).map (·.2)).sum =
      (List.replicate 5 (⟨10, none, none, none, none, none, none⟩ : Row) ++
        List.replicate 5
          (⟨12, none, none, none, none, none, none⟩ : Row)).length :=
  ⟨by decide,
   (dailyTrend_span_and_total _ (by decide)).1,
   (dailyTrend_span_and_total _ (by decide)).2⟩

/-! ### C2: trailing 7-day rolling average -/

/-- C2.  The rolling average at position `i` is the mean of
`counts[0..i]` inclusive when `i < 6` and the mean of `counts[i-6..i]`
when `i ≥ 6`: a trailing window truncated at the start of the series,
never zero-padded and never using future days. -/
theorem rollingAvg_trailing_window (counts : List Nat) (i : Nat)
    (h : i < counts.length) :
    (i < 6 → (rollingMean7 counts).getD i 0
        = ((counts.take (i + 1)).sum : ℚ) / ((i : ℚ) + 1)) ∧
    (6 ≤ i → (rollingMean7 counts).getD i 0
        = (((counts.drop (i - 6)).take 7).sum : ℚ) / 7) := by
  have hlen : i < (rollingMean7 counts).length := by
    simpa [rollingMean7] using h
  have hval : (rollingMean7 counts).getD i 0
      = ((((counts.take (i + 1)).drop (i - 6)).sum : ℚ)
          / (((counts.take (i + 1)).drop (i - 6)).length : ℚ)) := by
    rw [List.getD_eq_getElem _ _ hlen]
    simp [rollingMean7]
  constructor
  · intro h6
    have h0 : i - 6 = 0 := by omega
    rw [hval, h0, List.drop_zero]
    have hl : (counts.take (i + 1)).length = i + 1 := by
      rw [List.length_take]
      omega
    rw [hl]
    push_cast
    ring
  · intro h6
    have hw : (counts.take (i + 1)).drop (i - 6)
        = (counts.drop (i - 6)).take 7 := by
      rw [List.drop_take]
      congr 1
      omega
    rw [hval, hw]
    have hl : ((counts.drop (i - 6)).take 7).length = 7 := by
      rw [List.length_take, List.length_drop]
      omega
    rw [hl]
    norm_num

/-- Witness for C2 on the series `[3,1,4,1,5,9,2,6]`: the truncated window
at position 2 and the full 7-day window at position 7. -/
theorem rollingAvg_trailing_window_witness :
    (rollingMean7 [3, 1, 4, 1, 5, 9, 2, 6]).getD 2 0
        = ((([3, 1, 4, 1, 5, 9, 2, 6] : List Nat).take (2 + 1)).sum : ℚ)
            / ((2 : ℚ) + 1) ∧
    (rollingMean7 [3, 1, 4, 1, 5, 9, 2, 6]).getD 7 0
        = (((([3, 1, 4, 1, 5, 9, 2, 6] : List Nat).drop (7 - 6)).take 7).sum : ℚ)
            / 7 :=
  ⟨(rollingAvg_trailing_window [3, 1, 4, 1, 5, 9, 2, 6] 2 (by decide)).1
      (by decide),
   (rollingAvg_trailing_window [3, 1, 4, 1, 5, 9, 2, 6] 7 (by decide)).2
      (by decide)⟩

/-! ### C3: top-10-with-Others offense aggregation -/

lemma sum_take_le_sum (n : Nat) (l : List Nat) : (l.take n).sum ≤ l.sum := by
  conv_rhs => rw [← List.take_append_drop n l]
  rw [List.sum_append]
  exact Nat.le_add_right _ _

/-- C3 as stated is false: the offense group-by drops rows whose offense
category is null, so on the two-row table with offenses `["A", null]` the
pie counts sum to 1 while the table has 2 rows. -/
theorem pieData_sum_counterexample :
    ¬ (((pieData [⟨0, none, some "A", none, none, none, none⟩,
          ⟨0, none, none, none, none, none, none⟩]).map (·.2)).sum
        = ([⟨0, none, some "A", none, none, none, none⟩,
          ⟨0, none, none, none, none, none, none⟩] : List Row).length) := by
  decide

/-- C3 amended.  The pie counts sum to the number of rows of `T` with a
non-null offense category (the group-by drops null keys); the synthetic
"Others" row is present whenever the count beyond the top 10 is strictly
positive, and absent (the result is a permutation of the genuine top-10
categories) when that count is zero — in particular whenever `T` has at
most 10 distinct offense categories; and the result is sorted by count
descending after bucketing. -/
theorem pieData_amended (tbl : List Row) :
    ((pieData tbl).map (·.2)).sum
        = (tbl.filter (fun r => r.offense.isSome)).length ∧
    (0 < othersCount tbl → ("Others", othersCount tbl) ∈ pieData tbl) ∧
    (othersCount tbl = 0 → (pieData tbl).Perm (top10 tbl)) ∧
    ((groupKeys tbl (·.offense)).length ≤ 10 →
      (pieData tbl).Perm (offenseCountsFull tbl)) ∧
    (pieData tbl).Pairwise (fun a b => b.2 ≤ a.2) := by
  have hfullsum : ((offenseCountsFull tbl).map (·.2)).sum
      = (tbl.filter (fun r => r.offense.isSome)).length := by
    unfold offenseCountsFull sortByCountDesc
    rw [((perm_sortBy _ _).map _).sum_eq]
    exact sum_groupCounts tbl (·.offense)
  have htople : ((top10 tbl).map (·.2)).sum
      ≤ ((offenseCountsFull tbl).map (·.2)).sum := by
    unfold top10
    rw [List.map_take]
    exact sum_take_le_sum 10 _
  refine ⟨?_, ?_, ?_, ?_, pairwise_sortByCountDesc _⟩
  · unfold pieData sortByCountDesc
    rw [((perm_sortBy _ _).map _).sum_eq]
    by_cases hoc : 0 < othersCount tbl
    · rw [if_pos hoc, List.map_append, List.sum_append]
      simp only [List.map_cons, List.map_nil, List.sum_cons, List.sum_nil]
      rw [← hfullsum]
      unfold othersCount
      omega
    · rw [if_neg hoc]
      have hz : othersCount tbl = 0 := by omega
      unfold othersCount at hz
      rw [← hfullsum]
      omega
  · intro hoc
    unfold pieData sortByCountDesc
    rw [if_pos hoc]
    exact (perm_sortBy _ _).mem_iff.mpr
      (List.mem_append_right _ (List.mem_singleton.mpr rfl))
  · intro hz
    unfold pieData sortByCountDesc
    rw [if_neg (by omega)]
    exact perm_sortBy _ _
  · intro hk
    have hlenfull : (offenseCountsFull tbl).length ≤ 10 := by
      unfold offenseCountsFull sortByCountDesc
      rw [(perm_sortBy _ _).length_eq]
      unfold groupCounts
      rw [List.length_map]
      exact hk
    have htop : top10 tbl = offenseCountsFull tbl := by
      unfold top10
      exact List.take_of_length_le hlenfull
    have hz : othersCount tbl = 0 := by
      unfold othersCount
      rw [htop]
      omega
    unfold pieData sortByCountDesc
    rw [if_neg (by omega), htop]
    exact perm_sortBy _ _

/-- Witness for C3's amended claim: the "Others" row appears on a table
with 11 distinct single-row offense categories, and on a table with 2
distinct categories the pie is a permutation of the full count list. -/
theorem pieData_amended_witness :
    ("Others", othersCount
        [⟨0, none, some "a", none, none, none, none⟩,
         ⟨0, none, some "b", none, none, none, none⟩,
         ⟨0, none, some "c", none, none, none, none⟩,
         ⟨0, none, some "d", none, none, none, none⟩,
         ⟨0, none, some "e", none, none, none, none⟩,
         ⟨0, none, some "f", none, none, none, none⟩,
         ⟨0, none, some "g", none, none, none, none⟩,
         ⟨0, none, some "h", none, none, none, none⟩,
         ⟨0, none, some "i", none, none, none, none⟩,
         ⟨0, none, some "j", none, none, none, none⟩,
         ⟨0, none, some "k", none, none, none, none⟩]) ∈
      pieData
        [⟨0, none, some "a", none, none, none, none⟩,
         ⟨0, none, some "b", none, none, none, none⟩,
         ⟨0, none, some "c", none, none, none, none⟩,
         ⟨0, none, some "d", none, none, none, none⟩,
         ⟨0, none, some "e", none, none, none, none⟩,
         ⟨0, none, some "f", none, none, none, none⟩,
         ⟨0, none, some "g", none, none, none, none⟩,
         ⟨0, none, some "h", none, none, none, none⟩,
         ⟨0, none, some "i", none, none, none, none⟩,
         ⟨0, none, some "j", none, none, none, none⟩,
         ⟨0, none, some "k", none, none, none, none⟩] ∧
    (pieData
        [⟨0, none, some "a", none, none, none, none⟩,
         ⟨0, none, some "b", none, none, none, none⟩]).Perm
      (offenseCountsFull
        [⟨0, none, some "a", none, none, none, none⟩,
         ⟨0, none, some "b", none, none, none, none⟩]) :=
  ⟨(pieData_amended
      [⟨0, none, some "a", none, none, none, none⟩,
       ⟨0, none, some "b", none, none, none, none⟩,
       ⟨0, none, some "c", none, none, none, none⟩,
       ⟨0, none, some "d", none, none, none, none⟩,
       ⟨0, none, some "e", none, none, none, none⟩,
       ⟨0, none, some "f", none, none, none, none⟩,
       ⟨0, none, some "g", none, none, none, none⟩,
       ⟨0, none, some "h", none, none, none, none⟩,
       ⟨0, none, some "i", none, none, none, none⟩,
       ⟨0, none, some "j", none, none, none, none⟩,
       ⟨0, none, some "k", none, none, none, none⟩]).2.1 (by decide),
   (pieData_amended
      [⟨0, none, some "a", none, none, none, none⟩,
       ⟨0, none, some "b", none, none, none, none⟩]).2.2.2.1 (by decide)⟩
